import Mathlib

/-!
Verification development for the hedge-fund-ai-server repository.

The claims concern the MCP layer: the streaming decoder
`HedgeFundAIClient.parseStreamResponse` (src/mcp/src/client.ts, cancellation-aware
variant), the cancellation token `MCPCancellationToken`, the tool dispatcher and
request registry of `HedgeFundAITools` (src/unnamed/part_001, cancellation-aware
variant, and the legacy src/mcp/src/tools.ts), the zod schemas of
src/unnamed/part_002, and the dashboard stream processor
src/client/app/utils/useStreamProcessor.ts.

Modelling conventions (shallow embedding):
* JavaScript strings are modelled as lists of UTF-16 code units (`List Nat`);
  byte streams are lists of naturals below 256.
* `TextDecoder` (streaming UTF-8) is modelled byte-at-a-time by the WHATWG
  UTF-8 decoder state machine; code points above 0xFFFF are emitted as
  surrogate pairs, exactly as a JS string stores them.  The source never
  flushes the decoder at end of stream, and neither does the model.
* `JSON.parse` is modelled by a strict ECMA-404 parser over code-unit lists.
  Numbers keep their literal spelling (`Json.num` holds the lexeme);
  duplicate object keys resolve to the last occurrence, as in JS.
* Exceptions are modelled by an `Option` "thrown" component threaded through
  the state; `async`/`await` suspension points are where external cancellation
  may be observed, so external cancellation is indexed by chunk number.
-/

namespace HedgeFund

/-- Code points of a Lean string literal, used to spell JS string constants. -/
def cp (s : String) : List Nat := s.data.map Char.toNat

/-- JavaScript `String.prototype.trim` whitespace class (the members relevant
to this code base: space, tab, LF, VT, FF, CR, NBSP, BOM). -/
def isJsWs (c : Nat) : Bool :=
  c = 32 || c = 9 || c = 10 || c = 11 || c = 12 || c = 13 || c = 160 || c = 65279

/-- JavaScript `s.trim()` on a code-unit list. -/
def trimStr (s : List Nat) : List Nat :=
  ((s.dropWhile isJsWs).reverse.dropWhile isJsWs).reverse

/-- The SSE marker `"data: "`. -/
def dataMarker : List Nat := cp "data: "

/-- The strip `line.startsWith("data: ") ? line.substring(6) : line`
(client.ts lines 392-394 and 423-425). -/
def sseStrip (line : List Nat) : List Nat :=
  if dataMarker.isPrefixOf line then line.drop 6 else line

/-! ## WHATWG incremental UTF-8 decoder (the model of `TextDecoder` with
`{stream: true}`) -/

/-- Decoder state of the WHATWG UTF-8 decoder: accumulated code point, how
many continuation bytes are still needed / already seen, and the admissible
range for the next continuation byte. -/
structure Utf8State where
  codePoint : Nat
  bytesNeeded : Nat
  bytesSeen : Nat
  lowerBoundary : Nat
  upperBoundary : Nat
deriving DecidableEq

def utf8Init : Utf8State := ⟨0, 0, 0, 0x80, 0xBF⟩

/-- A finished code point is put into the JS string as UTF-16 code units:
one unit below 0x10000, a surrogate pair above. -/
def toUnits (c : Nat) : List Nat :=
  if c < 0x10000 then [c]
  else [0xD800 + (c - 0x10000) / 0x400, 0xDC00 + (c - 0x10000) % 0x400]

/-- Classify a byte in the initial decoder state (no continuation pending). -/
def utf8Lead (b : Nat) : Utf8State × List Nat :=
  if b ≤ 0x7F then (utf8Init, [b])
  else if 0xC2 ≤ b ∧ b ≤ 0xDF then
    (⟨b % 32, 1, 0, 0x80, 0xBF⟩, [])
  else if 0xE0 ≤ b ∧ b ≤ 0xEF then
    (⟨b % 16, 2, 0, if b = 0xE0 then 0xA0 else 0x80,
      if b = 0xED then 0x9F else 0xBF⟩, [])
  else if 0xF0 ≤ b ∧ b ≤ 0xF4 then
    (⟨b % 8, 3, 0, if b = 0xF0 then 0x90 else 0x80,
      if b = 0xF4 then 0x8F else 0xBF⟩, [])
  else (utf8Init, [0xFFFD])

/-- One byte of the WHATWG UTF-8 decode algorithm.  On a continuation-byte
error the byte is reconsumed from the initial state after emitting U+FFFD,
as the WHATWG algorithm prepends the byte back to the stream. -/
def utf8Step (st : Utf8State) (b : Nat) : Utf8State × List Nat :=
  if st.bytesNeeded = 0 then utf8Lead b
  else if st.lowerBoundary ≤ b ∧ b ≤ st.upperBoundary then
    let c := st.codePoint * 64 + b % 64
    if st.bytesSeen + 1 = st.bytesNeeded then (utf8Init, toUnits c)
    else (⟨c, st.bytesNeeded, st.bytesSeen + 1, 0x80, 0xBF⟩, [])
  else
    let (st', out) := utf8Lead b
    (st', 0xFFFD :: out)

/-- Model of `decoder.decode(chunk, {stream: true})`: run the state machine over a
chunk, returning the new state and the decoded code units. -/
def utf8DecodeChunk (st : Utf8State) : List Nat → Utf8State × List Nat
  | [] => (st, [])
  | b :: bs =>
    let (st1, out1) := utf8Step st b
    let (st2, out2) := utf8DecodeChunk st1 bs
    (st2, out1 ++ out2)

/-! ## JSON values and the model of `JSON.parse` -/

inductive Json where
  | null
  | jbool (b : Bool)
  | num (lex : List Nat)
  | str (s : List Nat)
  | arr (elems : List Json)
  | obj (fields : List (List Nat × Json))

/-- Field lookup on a parsed object; JS keeps the value of the last duplicate
key, so the last binding wins.  Non-objects have no fields. -/
def getField (v : Json) (k : List Nat) : Option Json :=
  match v with
  | Json.obj fs => (fs.reverse.find? (fun p => p.1 = k)).map (·.2)
  | _ => none

/-- JSON (ECMA-404) insignificant whitespace. -/
def isJsonWs (c : Nat) : Bool := c = 32 || c = 9 || c = 10 || c = 13

def skipWs (s : List Nat) : List Nat := s.dropWhile isJsonWs

def isDigit (c : Nat) : Bool := 48 ≤ c && c ≤ 57

def isHexDigit (c : Nat) : Bool :=
  isDigit c || (65 ≤ c && c ≤ 70) || (97 ≤ c && c ≤ 102)

def hexVal (c : Nat) : Nat :=
  if isDigit c then c - 48 else if c ≤ 70 then c - 55 else c - 87

/-- String body after the opening quote: returns contents and the rest after
the closing quote.  Strict JSON: raw control characters are rejected, only
the eight named escapes and `\uXXXX` are accepted. -/
def parseStringRest : List Nat → Option (List Nat × List Nat)
  | [] => none
  | c :: rest =>
    if c = 34 then some ([], rest)
    else if c = 92 then
      match rest with
      | [] => none
      | e :: rest' =>
        if e = 117 then
          match rest' with
          | h1 :: h2 :: h3 :: h4 :: rest'' =>
            if isHexDigit h1 && isHexDigit h2 && isHexDigit h3 && isHexDigit h4 then
              (parseStringRest rest'').map (fun p =>
                ((((hexVal h1 * 16 + hexVal h2) * 16 + hexVal h3) * 16 + hexVal h4) :: p.1, p.2))
            else none
          | _ => none
        else
          let esc : Option Nat :=
            if e = 34 then some 34 else if e = 92 then some 92
            else if e = 47 then some 47 else if e = 98 then some 8
            else if e = 102 then some 12 else if e = 110 then some 10
            else if e = 114 then some 13 else if e = 116 then some 9
            else none
          match esc with
          | some d => (parseStringRest rest').map (fun p => (d :: p.1, p.2))
          | none => none
    else if c < 32 then none
    else (parseStringRest rest).map (fun p => (c :: p.1, p.2))

/-- Optional fraction part `. digits` of a JSON number. -/
def parseFrac (rest : List Nat) : Option (List Nat × List Nat) :=
  match rest with
  | 46 :: r1 =>
    let ds := r1.takeWhile isDigit
    if ds = [] then none
    else some (46 :: ds, r1.dropWhile isDigit)
  | _ => some ([], rest)

/-- Optional exponent part `(e|E) (+|-)? digits` of a JSON number. -/
def parseExp (rest : List Nat) : Option (List Nat × List Nat) :=
  match rest with
  | e :: r2 =>
    if e = 101 ∨ e = 69 then
      let (es, r3) :=
        match r2 with
        | 43 :: r => ([(43 : Nat)], r)
        | 45 :: r => ([(45 : Nat)], r)
        | _ => (([] : List Nat), r2)
      let ds := r3.takeWhile isDigit
      if ds = [] then none
      else some (e :: es ++ ds, r3.dropWhile isDigit)
    else some ([], rest)
  | [] => some ([], rest)

/-- Number grammar of JSON: `-? int frac? exp?` with no leading zeros.
Returns the lexeme and the rest. -/
def parseNumber (s : List Nat) : Option (List Nat × List Nat) :=
  let (sign, s1) :=
    match s with
    | 45 :: r => ([(45 : Nat)], r)
    | _ => (([] : List Nat), s)
  match s1 with
  | [] => none
  | d :: r =>
    let intRest : Option (List Nat × List Nat) :=
      if d = 48 then some ([d], r)
      else if isDigit d then some (d :: r.takeWhile isDigit, r.dropWhile isDigit)
      else none
    match intRest with
    | none => none
    | some (intPart, rest) =>
      match parseFrac rest with
      | none => none
      | some (fracPart, rest1) =>
        match parseExp rest1 with
        | none => none
        | some (expPart, rest2) =>
          some (sign ++ intPart ++ fracPart ++ expPart, rest2)

mutual

/-- Recursive-descent JSON value parser, fuelled for termination. -/
def parseJsonVal : Nat → List Nat → Option (Json × List Nat)
  | 0, _ => none
  | Nat.succ fuel, s =>
    match skipWs s with
    | [] => none
    | c :: rest =>
      if c = 110 then
        if (cp "ull").isPrefixOf rest then some (Json.null, rest.drop 3) else none
      else if c = 116 then
        if (cp "rue").isPrefixOf rest then some (Json.jbool true, rest.drop 3) else none
      else if c = 102 then
        if (cp "alse").isPrefixOf rest then some (Json.jbool false, rest.drop 4) else none
      else if c = 34 then
        (parseStringRest rest).map (fun p => (Json.str p.1, p.2))
      else if c = 91 then
        match skipWs rest with
        | 93 :: r => some (Json.arr [], r)
        | _ => (parseArrElems fuel rest).map (fun p => (Json.arr p.1, p.2))
      else if c = 123 then
        match skipWs rest with
        | 125 :: r => some (Json.obj [], r)
        | _ => (parseObjMembers fuel rest).map (fun p => (Json.obj p.1, p.2))
      else
        (parseNumber (c :: rest)).map (fun p => (Json.num p.1, p.2))

/-- One or more comma-separated array elements followed by `]`. -/
def parseArrElems : Nat → List Nat → Option (List Json × List Nat)
  | 0, _ => none
  | Nat.succ fuel, s =>
    match parseJsonVal fuel s with
    | none => none
    | some (v, rest) =>
      match skipWs rest with
      | 44 :: r =>
        (parseArrElems fuel r).map (fun p => (v :: p.1, p.2))
      | 93 :: r => some ([v], r)
      | _ => none

/-- One or more comma-separated `"key": value` members followed by `}`. -/
def parseObjMembers : Nat → List Nat → Option (List (List Nat × Json) × List Nat)
  | 0, _ => none
  | Nat.succ fuel, s =>
    match skipWs s with
    | 34 :: rest =>
      match parseStringRest rest with
      | none => none
      | some (key, rest1) =>
        match skipWs rest1 with
        | 58 :: rest2 =>
          match parseJsonVal fuel rest2 with
          | none => none
          | some (v, rest3) =>
            match skipWs rest3 with
            | 44 :: r =>
              (parseObjMembers fuel r).map (fun p => ((key, v) :: p.1, p.2))
            | 125 :: r => some ([(key, v)], r)
            | _ => none
        | _ => none
    | _ => none

end

/-- The model of `JSON.parse`: the whole input must be one JSON value plus
trailing whitespace; anything else throws, modelled as `none`.  The fuel
`2 * length + 4` dominates the recursion depth, since each two fuel steps
consume at least one input code unit. -/
def parseJson (s : List Nat) : Option Json :=
  match parseJsonVal (2 * s.length + 4) s with
  | some (v, rest) => if skipWs rest = [] then some v else none
  | none => none

/-- The `data.type === "cancelled"`-style tag test on a parsed message. -/
def typeIs (v : Json) (t : List Nat) : Bool :=
  match getField v (cp "type") with
  | some (Json.str s) => s = t
  | _ => false

/-- The server-asserted cancellation event test of client.ts lines 400 and 431. -/
def isCancelledEvent (v : Json) : Bool := typeIs v (cp "cancelled")

/-! ## The streaming decoder `HedgeFundAIClient.parseStreamResponse`
(client.ts lines 362-458, cancellation-aware variant)

The generator's per-message state is separated from the chunk-level state
(UTF-8 decoder and line buffer), since the per-line code reads and writes
only the token flag, the yielded events, the parse diagnostics and any
pending exception.  `thrown` stores the error message as the *consumer*
sees it, i.e. already mapped through the outer catch of lines 447-451
(which re-reports any error as "Request was cancelled" whenever the token
is cancelled at that moment). -/

def cancelMsg : List Nat := cp "Request was cancelled"

def serverCancelMsg : List Nat := cp "Request was cancelled by server"

structure MsgState where
  tok : Bool
  events : List Json
  diags : List (List Nat)
  thrown : Option (List Nat)

def msgInit : MsgState := ⟨false, [], [], none⟩

/-- The body of `for (const line of lines)` (client.ts lines 382-416): skip
blank lines, check the token, strip the SSE marker, drop a blank remainder,
parse; a parse failure is logged (`diags`) and skipped; a server-asserted
cancelled event cancels the local token when it has a request id and throws;
any other value is yielded. -/
def processLine (hasReqId : Bool) (m : MsgState) (line : List Nat) : MsgState :=
  if m.thrown.isSome then m
  else if trimStr line = [] then m
  else if m.tok then { m with thrown := some cancelMsg }
  else
    let jsonData := sseStrip line
    if trimStr jsonData = [] then m
    else
      match parseJson jsonData with
      | none => { m with diags := m.diags ++ [line] }
      | some Json.null =>
        -- reading `data.type` of a parsed null throws a TypeError, whose
        -- message does not contain "cancelled"; the inner catch logs it
        -- like a parse failure and the message is dropped
        { m with diags := m.diags ++ [line] }
      | some v =>
        if isCancelledEvent v then
          let tok' := m.tok || hasReqId
          { m with tok := tok',
                   thrown := some (if tok' then cancelMsg else serverCancelMsg) }
        else { m with events := m.events ++ [v] }

def processLines (hasReqId : Bool) (m : MsgState) (ls : List (List Nat)) : MsgState :=
  ls.foldl (processLine hasReqId) m

/-- Model of `lines = buffer.split("\n"); buffer = lines.pop() || ""`: the complete
newline-terminated segments and the retained remainder. -/
def splitComplete : List Nat → List (List Nat) × List Nat
  | [] => ([], [])
  | c :: cs =>
    match splitComplete cs with
    | (ls, r) =>
      if c = 10 then ([] :: ls, r)
      else
        match ls with
        | [] => ([], c :: r)
        | l :: ls' => ((c :: l) :: ls', r)

/-- Lines joined with a trailing newline each. -/
def unlines : List (List Nat) → List Nat
  | [] => []
  | l :: ls => l ++ 10 :: unlines ls

structure StreamState where
  u : Utf8State
  buffer : List Nat
  msg : MsgState

def streamInit : StreamState := ⟨utf8Init, [], msgInit⟩

/-- One iteration of `for await (const chunk of stream)` (client.ts lines
370-417).  `extC` is true when the token was cancelled externally during the
await for this chunk — the only suspension point at which an outside
`cancel()` can be observed under the single-threaded event loop. -/
def processChunk (hasReqId : Bool) (extC : Bool) (st : StreamState)
    (bytes : List Nat) : StreamState :=
  if st.msg.thrown.isSome then st
  else if st.msg.tok || extC then
    { st with msg := { st.msg with tok := true, thrown := some cancelMsg } }
  else
    let p := utf8DecodeChunk st.u bytes
    let q := splitComplete (st.buffer ++ p.2)
    { u := p.1, buffer := q.2, msg := processLines hasReqId st.msg q.1 }

/-- External cancellation schedule: `cancelAfter = some k` means the token's
`cancel()` runs right after the k-th chunk (0-based) was processed, so it is
observed at every suspension point with index above k. -/
def extCancelAt (cancelAfter : Option Nat) (i : Nat) : Bool :=
  match cancelAfter with
  | some k => decide (k < i)
  | none => false

def processChunks (hasReqId : Bool) (ca : Option Nat) :
    StreamState → List (List Nat) → Nat → StreamState
  | st, [], _ => st
  | st, c :: cs, i =>
    processChunks hasReqId ca (processChunk hasReqId (extCancelAt ca i) st c) cs (i + 1)

/-- The trailing-buffer pass of client.ts lines 419-446: after the loop, a
non-blank remainder is parsed and emitted unless the token is cancelled (in
which case it is silently dropped — no throw on this path). -/
def finalizeStream (hasReqId : Bool) (extC : Bool) (st : StreamState) : StreamState :=
  if st.msg.thrown.isSome then st
  else
    let tok0 := st.msg.tok || extC
    let m := { st.msg with tok := tok0 }
    if trimStr st.buffer ≠ [] ∧ tok0 = false then
      let jsonData := sseStrip st.buffer
      if trimStr jsonData = [] then { st with msg := m }
      else
        match parseJson jsonData with
        | none => { st with msg := { m with diags := m.diags ++ [st.buffer] } }
        | some Json.null =>
          -- same TypeError on `data.type` as in the per-line pass: a parsed
          -- null is logged by the catch and dropped
          { st with msg := { m with diags := m.diags ++ [st.buffer] } }
        | some v =>
          if isCancelledEvent v then
            let tok' := tok0 || hasReqId
            let thr := some (if tok' then cancelMsg else serverCancelMsg)
            { st with msg := { m with tok := tok', thrown := thr } }
          else { st with msg := { m with events := m.events ++ [v] } }
    else { st with msg := m }

/-- What the consumer of the generator observes: the yielded events in
order, the parse diagnostics, and `none` for a clean end of stream or
`some msg` for the error that ended it. -/
structure StreamRun where
  events : List Json
  diags : List (List Nat)
  outcome : Option (List Nat)

/-- The end of the stream, after the chunk loop: a transport error raised
by the stream skips the trailing-buffer pass and goes straight to the outer
catch, which reports cancellation instead whenever the token is cancelled by
then (`endC` is the externally-observed cancellation flag at that point);
otherwise the trailing buffer is processed and the generator returns. -/
def finishStream (hasReqId : Bool) (endC : Bool) (transportErr : Option (List Nat))
    (st : StreamState) : StreamRun :=
  match transportErr with
  | some e =>
    if st.msg.thrown.isSome then ⟨st.msg.events, st.msg.diags, st.msg.thrown⟩
    else
      let tok0 := st.msg.tok || endC
      ⟨st.msg.events, st.msg.diags, some (if tok0 then cancelMsg else e)⟩
  | none =>
    let st' := finalizeStream hasReqId endC st
    ⟨st'.msg.events, st'.msg.diags, st'.msg.thrown⟩

/-- The decoder `HedgeFundAIClient.parseStreamResponse` end to end.  `transportErr`
models the stream itself raising after delivering `chunks` (an axios
transport failure). -/
def parseStreamResponse (hasReqId : Bool) (cancelAfter : Option Nat)
    (chunks : List (List Nat)) (transportErr : Option (List Nat)) : StreamRun :=
  finishStream hasReqId (extCancelAt cancelAfter chunks.length) transportErr
    (processChunks hasReqId cancelAfter streamInit chunks 0)

/-- A consumer-visible cancellation ending, as distinct from a clean end of
stream (`none`) and from any generic error message. -/
def isCancellationOutcome (o : Option (List Nat)) : Prop :=
  o = some cancelMsg ∨ o = some serverCancelMsg

/-! ## `MCPCancellationToken` (client.ts lines 163-194, part_001 lines 31-60)

The token is a state machine over register/cancel operations; each step also
reports which callbacks were invoked during it, in invocation order. -/

inductive TokOp where
  | reg (cb : Nat)
  | cancel
deriving DecidableEq

structure TokState where
  cancelled : Bool
  callbacks : List Nat
deriving DecidableEq

def tokInit : TokState := ⟨false, []⟩

/-- Method `onCancellation` pushes the callback, or fires it immediately when the
token is already cancelled; `cancel` is a no-op when already cancelled and
otherwise sets the flag, fires the registered callbacks in order and clears
the list. -/
def tokStep (st : TokState) : TokOp → TokState × List Nat
  | TokOp.reg cb =>
    if st.cancelled then (st, [cb])
    else ({ st with callbacks := st.callbacks ++ [cb] }, [])
  | TokOp.cancel =>
    if st.cancelled then (st, [])
    else (⟨true, []⟩, st.callbacks)

def tokRun (st : TokState) : List TokOp → TokState × List Nat
  | [] => (st, [])
  | op :: ops =>
    let (st1, f1) := tokStep st op
    let (st2, f2) := tokRun st1 ops
    (st2, f1 ++ f2)

/-- The callbacks registered by a trace, in registration order. -/
def regIds (ops : List TokOp) : List Nat :=
  ops.filterMap (fun op => match op with | TokOp.reg c => some c | TokOp.cancel => none)

/-! ## Request registry of `HedgeFundAITools` (part_001)

`activeRequests` keyed by request id.  `start` is the `set` before the tool
dispatch (line 222), `finish` is the `delete` in the `finally` that runs on
every terminal path — completion, error or cancellation — (line 260), and
`notif` is the `notifications/cancelled` handler (lines 96-107), which
cancels and deletes only when a non-empty id is currently registered.
The second component logs every id actually removed from the registry. -/

abbrev ReqId := List Nat

inductive DispatchEv where
  | start (id : ReqId)
  | notif (id : ReqId)
  | finish (id : ReqId)
deriving DecidableEq

def regSet (r : List ReqId) (id : ReqId) : List ReqId :=
  if id ∈ r then r else r ++ [id]

def regDelete (r : List ReqId) (id : ReqId) : List ReqId :=
  r.filter (fun x => x ≠ id)

def dispStep : List ReqId × List ReqId → DispatchEv → List ReqId × List ReqId
  | (r, log), DispatchEv.start id => (regSet r id, log)
  | (r, log), DispatchEv.notif id =>
    if id ≠ [] ∧ id ∈ r then (regDelete r id, log ++ [id]) else (r, log)
  | (r, log), DispatchEv.finish id =>
    if id ∈ r then (regDelete r id, log ++ [id]) else (r, log)

def dispRun (evs : List DispatchEv) : List ReqId × List ReqId :=
  evs.foldl dispStep ([], [])

/-! ## Tool-call dispatch -/

inductive ToolHandler where
  | generateAnalysis
  | getHealth
  | getSystemStatus
  | getAvailableAnalysts
  | searchTickers
  | getPortfolioStatus
deriving DecidableEq

/-- The `switch (name)` of the cancellation-aware dispatcher (part_001 lines
227-250); `none` models the `default` branch `throw new Error("Unknown tool:
" + name)`. -/
def callToolDispatch (name : List Nat) : Option ToolHandler :=
  if name = cp "generate_analysis" then some ToolHandler.generateAnalysis
  else if name = cp "get_health" then some ToolHandler.getHealth
  else if name = cp "get_system_status" then some ToolHandler.getSystemStatus
  else if name = cp "get_available_analysts" then some ToolHandler.getAvailableAnalysts
  else if name = cp "search_tickers" then some ToolHandler.searchTickers
  else none

/-- The `switch (name)` of the legacy dispatcher (src/mcp/src/tools.ts lines
80-101), which still routes `get_portfolio_status` to
`handleGetPortfolioStatus` (lines 190-211), backed by
`HedgeFundAIClient.getPortfolioStatus` (`GET /api/portfolio/status`). -/
def legacyCallToolDispatch (name : List Nat) : Option ToolHandler :=
  if name = cp "generate_analysis" then some ToolHandler.generateAnalysis
  else if name = cp "get_health" then some ToolHandler.getHealth
  else if name = cp "get_system_status" then some ToolHandler.getSystemStatus
  else if name = cp "get_portfolio_status" then some ToolHandler.getPortfolioStatus
  else if name = cp "get_available_analysts" then some ToolHandler.getAvailableAnalysts
  else if name = cp "search_tickers" then some ToolHandler.searchTickers
  else none

inductive ToolErr where
  | cancelledError
  | generic (msg : List Nat)
deriving DecidableEq

/-- The catch of the tool-call handler (part_001 lines 253-257): whatever
error reaches it is replaced by a `CancelledError` whenever the call's token
is cancelled at that moment. -/
def callToolCatch (isCancelled : Bool) (e : ToolErr) : ToolErr :=
  if isCancelled then ToolErr.cancelledError else e

/-! ## zod schemas (src/unnamed/part_002) -/

def isStr : Json → Bool
  | Json.str _ => true
  | _ => false

def isNum : Json → Bool
  | Json.num _ => true
  | _ => false

def isBool : Json → Bool
  | Json.jbool _ => true
  | _ => false

def isStrArr : Json → Bool
  | Json.arr es => es.all isStr
  | _ => false

def isObj : Json → Bool
  | Json.obj _ => true
  | _ => false

/-- A required field of a zod object: present and matching. -/
def reqField (j : Json) (k : List Nat) (check : Json → Bool) : Bool :=
  match getField j k with
  | some v => check v
  | none => false

/-- An optional (or defaulted) field of a zod object: absent, or matching.
A present `null` fails, as zod `.optional()` admits only `undefined`. -/
def optField (j : Json) (k : List Nat) (check : Json → Bool) : Bool :=
  match getField j k with
  | some v => check v
  | none => true

/-- The `PortfolioSchema.positions` record entries (part_002 lines 20-28). -/
def positionCheck (v : Json) : Bool :=
  isObj v
  && reqField v (cp "ticker") isStr
  && reqField v (cp "shares") isNum
  && reqField v (cp "avg_price") isNum
  && optField v (cp "current_price") isNum
  && optField v (cp "market_value") isNum

/-- Schema `PortfolioSchema` (part_002 lines 18-29). -/
def portfolioCheck (v : Json) : Bool :=
  reqField v (cp "cash") isNum
  && (match getField v (cp "positions") with
      | some (Json.obj fs) => fs.all (fun p => positionCheck p.2)
      | _ => false)

/-- Model of `AnalysisRequestSchema.parse` (part_002 lines 32-43) as an accept/reject
predicate: `tickers` is a required array of strings — with no minimum
length — and every other field is optional or defaulted, typed as shown.
Unknown keys are stripped, not rejected. -/
def analysisRequestCheck (j : Json) : Bool :=
  isObj j
  && reqField j (cp "tickers") isStrArr
  && optField j (cp "start_date") isStr
  && optField j (cp "end_date") isStr
  && optField j (cp "initial_cash") isNum
  && optField j (cp "margin_requirement") isNum
  && optField j (cp "portfolio") portfolioCheck
  && optField j (cp "show_reasoning") isBool
  && optField j (cp "selected_analysts") isStrArr
  && optField j (cp "model_name") isStr
  && optField j (cp "model_provider") isStr

inductive GenOutcome where
  | validationError
  | postIssued
deriving DecidableEq

/-- Model of `HedgeFundAIClient.generateAnalysis` (client.ts lines 263-305) up to the
network boundary: `AnalysisRequestSchema.parse(request)` runs first and a
schema failure throws before any network call; otherwise the streaming POST
to /api/analysis/generate is issued. -/
def generateAnalysis (req : Json) : GenOutcome :=
  if analysisRequestCheck req then GenOutcome.postIssued
  else GenOutcome.validationError

def progressStages : List (List Nat) :=
  [cp "initialization", cp "analysis", cp "risk_management", cp "portfolio_management"]

/-- Schema `ProgressUpdateSchema` (part_002 lines 46-60). -/
def progressUpdateCheck (j : Json) : Bool :=
  isObj j
  && typeIs j (cp "progress")
  && (match getField j (cp "stage") with
      | some (Json.str s) => progressStages.contains s
      | _ => false)
  && reqField j (cp "message") isStr
  && reqField j (cp "progress") isNum
  && optField j (cp "current_analyst") isStr
  && optField j (cp "analyst_progress") isStr
  && optField j (cp "analysts") isStrArr
  && optField j (cp "tickers") isStrArr

/-- Schema `AnalysisResultSchema` (part_002 lines 62-68); `decisions` is `z.any()`
and so unconstrained, `analyst_signals` is a record (an object). -/
def analysisResultCheck (j : Json) : Bool :=
  isObj j
  && typeIs j (cp "result")
  && (match getField j (cp "data") with
      | some d => isObj d && reqField d (cp "analyst_signals") isObj
      | none => false)

/-- Schema `ErrorResponseSchema` (part_002 lines 70-74). -/
def errorResponseCheck (j : Json) : Bool :=
  isObj j
  && typeIs j (cp "error")
  && reqField j (cp "message") isStr
  && reqField j (cp "stage") isStr

/-- Schema `AnalysisResponseSchema` (part_002 lines 76-80), the union of the three
event schemas.  `parseStreamResponse` never applies it to the values it
yields. -/
def analysisResponseCheck (j : Json) : Bool :=
  progressUpdateCheck j || analysisResultCheck j || errorResponseCheck j

/-! ## The dashboard stream processor (useStreamProcessor.ts lines 62-71) -/

def replaceFirstAux (p0 : Nat) (ps repl : List Nat) : List Nat → List Nat
  | [] => []
  | c :: rest =>
    if (p0 :: ps).isPrefixOf (c :: rest) then repl ++ rest.drop ps.length
    else c :: replaceFirstAux p0 ps repl rest

/-- JS `s.replace(pat, repl)` with a plain-string pattern: first occurrence
only. -/
def replaceFirstStr (pat repl s : List Nat) : List Nat :=
  match pat with
  | [] => repl ++ s
  | p0 :: ps => replaceFirstAux p0 ps repl s

def replaceAllAux (p0 : Nat) (ps repl : List Nat) : Nat → List Nat → List Nat
  | _, [] => []
  | 0, s => s
  | Nat.succ fuel, c :: rest =>
    if (p0 :: ps).isPrefixOf (c :: rest) then
      repl ++ replaceAllAux p0 ps repl fuel (rest.drop ps.length)
    else c :: replaceAllAux p0 ps repl fuel rest

/-- JS `s.replace(/pat/g, repl)` with a literal pattern: every occurrence,
left to right, not rescanning the replacement.  The fuel `s.length` is
enough, as every step consumes at least one input code unit. -/
def replaceAllStr (pat repl s : List Nat) : List Nat :=
  match pat with
  | [] => s
  | p0 :: ps => replaceAllAux p0 ps repl s.length s

/-- The per-message transform of `useStreamProcessor.processStream`:
`message.replace('data: ', '')` (first occurrence), then the deliberate
compatibility accommodation `message.replace(/: NaN/g, ': null')` — note
the mandatory space after the colon — before `JSON.parse`. -/
def sanitizeMessage (message : List Nat) : List Nat :=
  replaceAllStr (cp ": NaN") (cp ": null") (replaceFirstStr (cp "data: ") [] message)

/-- What the dashboard obtains from one message: `JSON.parse` of the
sanitized text, `none` when the parse error is caught and the message
skipped. -/
def useStreamProcessorParse (message : List Nat) : Option Json :=
  parseJson (sanitizeMessage message)

/-- The invariants that every reachable `MsgState` satisfies: the token flag
was only ever set together with a pending throw, and any pending throw is
one of the two cancellation messages. -/
def MsgOk (m : MsgState) : Prop :=
  (m.tok = true → m.thrown ≠ none) ∧
    (m.thrown = none ∨ m.thrown = some cancelMsg ∨ m.thrown = some serverCancelMsg)

/-- The invariants of every reachable chunk-loop state: the message state is
sound and the retained buffer holds no newline (it is always the remainder
after the last newline). -/
def streamOk (st : StreamState) : Prop := MsgOk st.msg ∧ 10 ∉ st.buffer

/-- Two chunk-loop states that the consumer cannot tell apart: same events,
same diagnostics, same pending throw — and states that are still live are
outright equal. -/
def streamEquiv (s t : StreamState) : Prop :=
  s.msg.events = t.msg.events ∧ s.msg.diags = t.msg.diags ∧
    s.msg.thrown = t.msg.thrown ∧ (s.msg.thrown = none → s = t)

/-- How many times `id` occurs in the removal log. -/
def countId (id : ReqId) (log : List ReqId) : Nat :=
  (log.filter (fun x => x = id)).length

/-! ## Concrete test fixtures (ASCII lines, so code points double as bytes) -/

/-- A JSON-quoted string literal. -/
def jq (s : String) : List Nat := [34] ++ cp s ++ [34]

/-- The line `{"type":"result"}`. -/
def exResultLine : List Nat := [123] ++ jq "type" ++ [58] ++ jq "result" ++ [125]

/-- The line `{"type":"progress","progress":NaN}` — the claim C2 example. -/
def exNaNLine : List Nat :=
  [123] ++ jq "type" ++ [58] ++ jq "progress" ++ [44] ++ jq "progress" ++ [58] ++ cp "NaN" ++ [125]

/-- The spaced variant `{"type": "progress", "progress": NaN}`. -/
def exNaNSpacedLine : List Nat :=
  [123] ++ jq "type" ++ [58, 32] ++ jq "progress" ++ [44, 32] ++ jq "progress" ++ [58, 32] ++ cp "NaN" ++ [125]

/-- UTF-8 bytes of the stream `{"type":"€"}\n`: the euro sign is the three
bytes 226, 130, 172, so a split at index 10 falls inside a character. -/
def exEuroBytes : List Nat :=
  [123] ++ jq "type" ++ [58] ++ [34, 226, 130, 172, 34] ++ [125, 10]

/-! ## Properties of the UTF-8 decoder and the line splitter -/

theorem utf8DecodeChunk_append (st : Utf8State) (a b : List Nat) :
    utf8DecodeChunk st (a ++ b) =
      ((utf8DecodeChunk (utf8DecodeChunk st a).1 b).1,
       (utf8DecodeChunk st a).2 ++ (utf8DecodeChunk (utf8DecodeChunk st a).1 b).2) := by
  induction a generalizing st with
  | nil => simp [utf8DecodeChunk]
  | cons x xs ih =>
    simp only [List.cons_append, utf8DecodeChunk, List.append_eq, ih, List.append_assoc]


theorem splitComplete_nil_fst :
    ∀ x : List Nat, (splitComplete x).1 = [] → (splitComplete x).2 = x := by
  intro x
  induction x with
  | nil => intro _; rfl
  | cons c cs ih =>
    intro hx
    rcases hp : splitComplete cs with ⟨ls, r⟩
    by_cases hc : c = 10
    · simp [splitComplete, hp, hc] at hx
    · cases ls with
      | nil =>
        simp only [splitComplete, hp, if_neg hc]
        have := ih (by simp [hp])
        simp [hp] at this
        simp [this]
      | cons l ls' => simp [splitComplete, hp, hc] at hx

theorem splitComplete_no_nl (x : List Nat) (hx : 10 ∉ x) : splitComplete x = ([], x) := by
  induction x with
  | nil => rfl
  | cons c cs ih =>
    have hc : c ≠ 10 := fun h => hx (by simp [h])
    have hcs : 10 ∉ cs := fun h => hx (List.mem_cons_of_mem _ h)
    simp [splitComplete, ih hcs, hc]

theorem splitComplete_rest_no_nl (x : List Nat) : 10 ∉ (splitComplete x).2 := by
  induction x with
  | nil => simp [splitComplete]
  | cons c cs ih =>
    rcases hp : splitComplete cs with ⟨ls, r⟩
    rw [hp] at ih
    by_cases hc : c = 10
    · simpa [splitComplete, hp, hc] using ih
    · cases ls with
      | nil =>
        simp only [splitComplete, hp, if_neg hc]
        simpa [Ne.symm hc] using ih
      | cons l ls' => simpa [splitComplete, hp, hc] using ih

theorem splitComplete_cons (c : Nat) (cs : List Nat) :
    splitComplete (c :: cs) =
      if c = 10 then ([] :: (splitComplete cs).1, (splitComplete cs).2)
      else
        match (splitComplete cs).1 with
        | [] => ([], c :: (splitComplete cs).2)
        | l :: ls' => ((c :: l) :: ls', (splitComplete cs).2) := by
  rcases hp : splitComplete cs with ⟨ls, r⟩
  simp only [splitComplete, hp]

theorem splitComplete_append (x y : List Nat) :
    splitComplete (x ++ y) =
      ((splitComplete x).1 ++ (splitComplete ((splitComplete x).2 ++ y)).1,
       (splitComplete ((splitComplete x).2 ++ y)).2) := by
  induction x with
  | nil => simp [splitComplete]
  | cons c x' ih =>
    rcases hp : splitComplete x' with ⟨ls, r⟩
    rw [hp] at ih
    simp only at ih
    by_cases hc : c = 10
    · subst hc
      have hcx : splitComplete (10 :: x') = ([] :: ls, r) := by
        rw [splitComplete_cons, hp]
        simp
      rw [hcx, List.cons_append, splitComplete_cons, ih]
      simp
    · cases ls with
      | nil =>
        have hr : r = x' := by
          have h0 := splitComplete_nil_fst x'
          rw [hp] at h0
          exact h0 rfl
        subst hr
        have hcx : splitComplete (c :: r) = ([], c :: r) := by
          rw [splitComplete_cons, hp]
          simp [hc]
        rw [hcx]
        simp [List.cons_append]
      | cons l ls' =>
        have hcx : splitComplete (c :: x') = ((c :: l) :: ls', r) := by
          rw [splitComplete_cons, hp]
          simp [hc]
        rw [hcx, List.cons_append, splitComplete_cons, ih]
        simp [hc]

theorem splitComplete_line (l rest : List Nat) (hl : 10 ∉ l) :
    splitComplete (l ++ 10 :: rest) = (l :: (splitComplete rest).1, (splitComplete rest).2) := by
  induction l with
  | nil =>
    rcases hp : splitComplete rest with ⟨ls, r⟩
    simp [splitComplete, hp]
  | cons c l' ih =>
    have hc : c ≠ 10 := fun h => hl (by simp [h])
    have hl' : 10 ∉ l' := fun h => hl (List.mem_cons_of_mem _ h)
    rw [List.cons_append]
    simp [splitComplete, ih hl', hc]

theorem splitComplete_unlines (ls : List (List Nat)) (h : ∀ l ∈ ls, 10 ∉ l) :
    splitComplete (unlines ls) = (ls, []) := by
  induction ls with
  | nil => rfl
  | cons l ls' ih =>
    have h1 : 10 ∉ l := h l (by simp)
    have h2 : ∀ m ∈ ls', 10 ∉ m := fun m hm => h m (by simp [hm])
    simp [unlines, splitComplete_line l (unlines ls') h1, ih h2]

/-! ## Properties of the per-line processing -/

theorem msgInit_ok : MsgOk msgInit := by
  constructor
  · intro h
    simp [msgInit] at h
  · left
    rfl

theorem processLine_absorbed (h : Bool) (m : MsgState) (l : List Nat)
    (hm : m.thrown ≠ none) : processLine h m l = m := by
  unfold processLine
  simp [Option.isSome_iff_ne_none, hm]

theorem processLines_absorbed (h : Bool) (m : MsgState) (ls : List (List Nat))
    (hm : m.thrown ≠ none) : processLines h m ls = m := by
  induction ls with
  | nil => rfl
  | cons l ls ih =>
    show processLines h (processLine h m l) ls = m
    rw [processLine_absorbed h m l hm]
    exact ih

theorem processLines_append (h : Bool) (m : MsgState) (a b : List (List Nat)) :
    processLines h m (a ++ b) = processLines h (processLines h m a) b := by
  simp [processLines, List.foldl_append]

/-- Unfolding of `processLine` on a live state, with the dead branches removed. -/
theorem processLine_run (h : Bool) (m : MsgState) (l : List Nat)
    (hthr : m.thrown = none) (htok : m.tok = false) :
    processLine h m l =
      if trimStr l = [] then m
      else if trimStr (sseStrip l) = [] then m
      else
        match parseJson (sseStrip l) with
        | none => { m with diags := m.diags ++ [l] }
        | some Json.null => { m with diags := m.diags ++ [l] }
        | some v =>
          if isCancelledEvent v then
            { m with tok := h, thrown := some (if h then cancelMsg else serverCancelMsg) }
          else { m with events := m.events ++ [v] } := by
  unfold processLine
  simp [hthr, htok]

theorem processLine_good (h : Bool) (m : MsgState) (l : List Nat) (v : Json)
    (hthr : m.thrown = none) (htok : m.tok = false)
    (h1 : trimStr l ≠ []) (h2 : trimStr (sseStrip l) ≠ [])
    (h3 : parseJson (sseStrip l) = some v) (hv : v ≠ Json.null)
    (h4 : isCancelledEvent v = false) :
    processLine h m l = { m with events := m.events ++ [v] } := by
  rw [processLine_run h m l hthr htok, if_neg h1, if_neg h2, h3]
  cases v with
  | null => exact absurd rfl hv
  | jbool b => simp [h4]
  | num x => simp [h4]
  | str x => simp [h4]
  | arr x => simp [h4]
  | obj x => simp [h4]

theorem processLine_null_diag (h : Bool) (m : MsgState) (l : List Nat)
    (hthr : m.thrown = none) (htok : m.tok = false)
    (h1 : trimStr l ≠ []) (h2 : trimStr (sseStrip l) ≠ [])
    (h3 : parseJson (sseStrip l) = some Json.null) :
    processLine h m l = { m with diags := m.diags ++ [l] } := by
  rw [processLine_run h m l hthr htok, if_neg h1, if_neg h2, h3]

theorem processLine_diag (h : Bool) (m : MsgState) (l : List Nat)
    (hthr : m.thrown = none) (htok : m.tok = false)
    (h1 : trimStr l ≠ []) (h2 : trimStr (sseStrip l) ≠ [])
    (h3 : parseJson (sseStrip l) = none) :
    processLine h m l = { m with diags := m.diags ++ [l] } := by
  rw [processLine_run h m l hthr htok, if_neg h1, if_neg h2, h3]

theorem processLine_msgOk (h : Bool) (m : MsgState) (l : List Nat) (hm : MsgOk m) :
    MsgOk (processLine h m l) := by
  cases hthr : m.thrown with
  | some e =>
    rw [processLine_absorbed h m l (by simp [hthr])]
    exact hm
  | none =>
    cases htok : m.tok with
    | true => exact absurd hthr (hm.1 htok)
    | false =>
      rw [processLine_run h m l hthr htok]
      split
      · exact hm
      split
      · exact hm
      split
      · exact ⟨fun ht => absurd ht (by simp [htok]), Or.inl hthr⟩
      · exact ⟨fun ht => absurd ht (by simp [htok]), Or.inl hthr⟩
      next v hv =>
        split
        · refine ⟨fun _ => by simp, ?_⟩
          cases h <;> simp
        · exact ⟨fun ht => absurd ht (by simp [htok]), Or.inl hthr⟩

theorem processLines_msgOk (h : Bool) (m : MsgState) (ls : List (List Nat))
    (hm : MsgOk m) : MsgOk (processLines h m ls) := by
  induction ls generalizing m with
  | nil => exact hm
  | cons l ls ih =>
    show MsgOk (processLines h (processLine h m l) ls)
    exact ih _ (processLine_msgOk h m l hm)

/-- Processing lines that each parse to a non-cancelled event just appends
the parsed values, in order. -/
theorem processLines_good (h : Bool) (m : MsgState) (ls : List (List Nat))
    (hthr : m.thrown = none) (htok : m.tok = false)
    (hls : ∀ l ∈ ls, trimStr l ≠ [] ∧ trimStr (sseStrip l) ≠ [] ∧
      ∃ v, parseJson (sseStrip l) = some v ∧ v ≠ Json.null ∧ isCancelledEvent v = false) :
    processLines h m ls =
      { m with events := m.events ++ ls.filterMap (fun l => parseJson (sseStrip l)) } := by
  induction ls generalizing m with
  | nil =>
    show m = _
    cases m
    simp
  | cons l ls ih =>
    obtain ⟨h1, h2, v, h3, hv, h4⟩ := hls l (by simp)
    show processLines h (processLine h m l) ls = _
    rw [processLine_good h m l v hthr htok h1 h2 h3 hv h4]
    rw [ih { m with events := m.events ++ [v] } hthr htok (fun l' hl' => hls l' (by simp [hl']))]
    simp [h3, List.filterMap_cons]

/-! ## Properties of the chunk loop -/

theorem streamInit_ok : streamOk streamInit :=
  ⟨msgInit_ok, by simp [streamInit]⟩

theorem streamEquiv_refl (s : StreamState) : streamEquiv s s :=
  ⟨rfl, rfl, rfl, fun _ => rfl⟩

theorem streamEquiv_trans {s t u : StreamState} (h1 : streamEquiv s t)
    (h2 : streamEquiv t u) : streamEquiv s u := by
  obtain ⟨e1, d1, t1, f1⟩ := h1
  obtain ⟨e2, d2, t2, f2⟩ := h2
  refine ⟨e1.trans e2, d1.trans d2, t1.trans t2, fun hn => ?_⟩
  rw [f1 hn]
  refine f2 ?_
  rw [← t1]
  exact hn

theorem streamEquiv_symm {s t : StreamState} (h : streamEquiv s t) : streamEquiv t s := by
  obtain ⟨e1, d1, t1, f1⟩ := h
  refine ⟨e1.symm, d1.symm, t1.symm, fun hn => ?_⟩
  have hs : s.msg.thrown = none := by rw [t1]; exact hn
  exact (f1 hs).symm

theorem processChunk_absorbed (h e : Bool) (st : StreamState) (c : List Nat)
    (hthr : st.msg.thrown ≠ none) : processChunk h e st c = st := by
  unfold processChunk
  simp [Option.isSome_iff_ne_none, hthr]

theorem processChunk_false (h : Bool) (st : StreamState) (c : List Nat)
    (hthr : st.msg.thrown = none) (htok : st.msg.tok = false) :
    processChunk h false st c =
      { u := (utf8DecodeChunk st.u c).1,
        buffer := (splitComplete (st.buffer ++ (utf8DecodeChunk st.u c).2)).2,
        msg := processLines h st.msg (splitComplete (st.buffer ++ (utf8DecodeChunk st.u c).2)).1 } := by
  unfold processChunk
  simp [hthr, htok]

theorem processChunk_true (h : Bool) (st : StreamState) (c : List Nat)
    (hthr : st.msg.thrown = none) :
    processChunk h true st c =
      { st with msg := { st.msg with tok := true, thrown := some cancelMsg } } := by
  unfold processChunk
  simp [hthr]

theorem processChunk_streamOk (h e : Bool) (st : StreamState) (c : List Nat)
    (hok : streamOk st) : streamOk (processChunk h e st c) := by
  cases hthr : st.msg.thrown with
  | some x =>
    rw [processChunk_absorbed h e st c (by simp [hthr])]
    exact hok
  | none =>
    cases htok : st.msg.tok with
    | true => exact absurd hthr (hok.1.1 htok)
    | false =>
      cases e with
      | true =>
        rw [processChunk_true h st c hthr]
        exact ⟨⟨fun _ => by simp, Or.inr (Or.inl rfl)⟩, hok.2⟩
      | false =>
        rw [processChunk_false h st c hthr htok]
        exact ⟨processLines_msgOk h st.msg _ hok.1, splitComplete_rest_no_nl _⟩

theorem processChunk_comp (h : Bool) (st : StreamState) (a b : List Nat)
    (hok : streamOk st) :
    streamEquiv (processChunk h false (processChunk h false st a) b)
      (processChunk h false st (a ++ b)) := by
  cases hthr : st.msg.thrown with
  | some x =>
    rw [processChunk_absorbed h false st a (by simp [hthr]),
        processChunk_absorbed h false st b (by simp [hthr]),
        processChunk_absorbed h false st (a ++ b) (by simp [hthr])]
    exact streamEquiv_refl st
  | none =>
    cases htok : st.msg.tok with
    | true => exact absurd hthr (hok.1.1 htok)
    | false =>
      have hRHS : processChunk h false st (a ++ b) =
          { u := (utf8DecodeChunk (utf8DecodeChunk st.u a).1 b).1,
            buffer := (splitComplete
              ((splitComplete (st.buffer ++ (utf8DecodeChunk st.u a).2)).2 ++
                (utf8DecodeChunk (utf8DecodeChunk st.u a).1 b).2)).2,
            msg := processLines h
              (processLines h st.msg (splitComplete (st.buffer ++ (utf8DecodeChunk st.u a).2)).1)
              (splitComplete
                ((splitComplete (st.buffer ++ (utf8DecodeChunk st.u a).2)).2 ++
                  (utf8DecodeChunk (utf8DecodeChunk st.u a).1 b).2)).1 } := by
        rw [processChunk_false h st (a ++ b) hthr htok, utf8DecodeChunk_append,
            ← List.append_assoc, splitComplete_append, processLines_append]
      rw [hRHS, processChunk_false h st a hthr htok]
      set m1 := processLines h st.msg (splitComplete (st.buffer ++ (utf8DecodeChunk st.u a).2)).1 with hm1def
      have hm1ok : MsgOk m1 := processLines_msgOk h st.msg _ hok.1
      cases hm1 : m1.thrown with
      | none =>
        have htok1 : m1.tok = false := by
          cases ht : m1.tok with
          | true => exact absurd hm1 (hm1ok.1 ht)
          | false => rfl
        rw [processChunk_false h _ b hm1 htok1]
        exact streamEquiv_refl _
      | some x =>
        rw [processChunk_absorbed h false _ b (by simp [hm1]),
            processLines_absorbed h m1 _ (by simp [hm1])]
        exact ⟨rfl, rfl, rfl, fun hn => absurd (hm1 ▸ hn) (by simp)⟩

theorem processChunks_absorbed (h : Bool) (ca : Option Nat) (st : StreamState)
    (cs : List (List Nat)) (i : Nat) (hthr : st.msg.thrown ≠ none) :
    processChunks h ca st cs i = st := by
  induction cs generalizing i with
  | nil => rfl
  | cons c cs ih =>
    show processChunks h ca (processChunk h (extCancelAt ca i) st c) cs (i + 1) = st
    rw [processChunk_absorbed h _ st c hthr]
    exact ih _

theorem processChunks_append (h : Bool) (ca : Option Nat) (st : StreamState)
    (xs ys : List (List Nat)) (i : Nat) :
    processChunks h ca st (xs ++ ys) i =
      processChunks h ca (processChunks h ca st xs i) ys (i + xs.length) := by
  induction xs generalizing st i with
  | nil => simp [processChunks]
  | cons c xs ih =>
    show processChunks h ca _ (xs ++ ys) (i + 1) = _
    rw [ih _ (i + 1)]
    have : i + 1 + xs.length = i + (xs.length + 1) := by omega
    rw [this]
    rfl

theorem processChunks_streamOk (h : Bool) (ca : Option Nat) (st : StreamState)
    (cs : List (List Nat)) (i : Nat) (hok : streamOk st) :
    streamOk (processChunks h ca st cs i) := by
  induction cs generalizing st i with
  | nil => exact hok
  | cons c cs ih => exact ih _ _ (processChunk_streamOk h _ st c hok)

theorem processChunks_none_shift (h : Bool) (st : StreamState)
    (cs : List (List Nat)) (i j : Nat) :
    processChunks h none st cs i = processChunks h none st cs j := by
  induction cs generalizing st i j with
  | nil => rfl
  | cons c cs ih =>
    show processChunks h none (processChunk h (extCancelAt none i) st c) cs (i + 1) = _
    rw [ih _ (i + 1) (j + 1)]
    rfl

theorem processChunks_early_segment (h : Bool) (k : Nat) (st : StreamState)
    (cs : List (List Nat)) (i : Nat) (hle : i + cs.length ≤ k + 1) :
    processChunks h (some k) st cs i = processChunks h none st cs i := by
  induction cs generalizing st i with
  | nil => rfl
  | cons c cs ih =>
    have hik : ¬ k < i := by simp at hle; omega
    show processChunks h (some k) (processChunk h (extCancelAt (some k) i) st c) cs (i + 1) = _
    have he : extCancelAt (some k) i = false := by simp [extCancelAt, hik]
    rw [he, ih _ (i + 1) (by simp at hle ⊢; omega)]
    rfl

/-- Chunk processing with a never-cancelled token depends only on the
concatenation of the chunks; internally it is the same as processing one
big chunk, up to consumer-invisible state. -/
theorem processChunks_flatten (h : Bool) (cs : List (List Nat)) (st : StreamState)
    (hok : streamOk st) :
    streamEquiv (processChunks h none st cs 0) (processChunk h false st cs.flatten) := by
  induction cs generalizing st with
  | nil =>
    cases hthr : st.msg.thrown with
    | some x =>
      rw [processChunk_absorbed h false st _ (by simp [hthr])]
      exact streamEquiv_refl st
    | none =>
      cases htok : st.msg.tok with
      | true => exact absurd hthr (hok.1.1 htok)
      | false =>
        show streamEquiv st _
        rw [List.flatten_nil, processChunk_false h st [] hthr htok]
        have hb : splitComplete (st.buffer ++ (utf8DecodeChunk st.u []).2) = ([], st.buffer) := by
          show splitComplete (st.buffer ++ []) = _
          rw [List.append_nil]
          exact splitComplete_no_nl st.buffer hok.2
        rw [hb]
        exact streamEquiv_refl st
  | cons c cs ih =>
    show streamEquiv (processChunks h none (processChunk h (extCancelAt none 0) st c) cs 1) _
    have h0 : extCancelAt none 0 = false := rfl
    rw [h0, processChunks_none_shift h _ cs 1 0]
    refine streamEquiv_trans (ih _ (processChunk_streamOk h false st c hok)) ?_
    rw [List.flatten_cons]
    exact processChunk_comp h st c cs.flatten hok

theorem finalizeStream_absorbed (h e : Bool) (st : StreamState)
    (hthr : st.msg.thrown ≠ none) : finalizeStream h e st = st := by
  unfold finalizeStream
  simp [Option.isSome_iff_ne_none, hthr]

theorem finishStream_congr (h e : Bool) (terr : Option (List Nat)) {s t : StreamState}
    (heq : streamEquiv s t) : finishStream h e terr s = finishStream h e terr t := by
  obtain ⟨hev, hd, ht, hf⟩ := heq
  cases hthr : s.msg.thrown with
  | none => rw [hf hthr]
  | some x =>
    have ht2 : t.msg.thrown = some x := by rw [← ht]; exact hthr
    cases terr with
    | some e' =>
      unfold finishStream
      simp [hthr, ht2, hev, hd]
    | none =>
      unfold finishStream
      rw [finalizeStream_absorbed h e s (by simp [hthr]),
          finalizeStream_absorbed h e t (by simp [ht2])]
      simp [hev, hd, ht]

theorem finishStream_thrown (h e : Bool) (terr : Option (List Nat)) (st : StreamState)
    (x : List Nat) (hthr : st.msg.thrown = some x) :
    finishStream h e terr st = ⟨st.msg.events, st.msg.diags, some x⟩ := by
  cases terr with
  | some e' =>
    unfold finishStream
    simp [hthr]
  | none =>
    unfold finishStream
    rw [finalizeStream_absorbed h e st (by simp [hthr])]
    simp [hthr]

/-! ## Properties of the cancellation token -/

theorem tokRun_from_cancelled (ops : List TokOp) :
    tokRun ⟨true, []⟩ ops = (⟨true, []⟩, regIds ops) := by
  induction ops with
  | nil => rfl
  | cons op ops ih =>
    cases op with
    | reg cb => simp [tokRun, tokStep, ih, regIds]
    | cancel => simp [tokRun, tokStep, ih, regIds]

theorem tokRun_fires (ops : List TokOp) (cbs : List Nat) (hc : TokOp.cancel ∈ ops) :
    (tokRun ⟨false, cbs⟩ ops).2 = cbs ++ regIds ops := by
  induction ops generalizing cbs with
  | nil => cases hc
  | cons op ops ih =>
    cases op with
    | cancel => simp [tokRun, tokStep, tokRun_from_cancelled, regIds]
    | reg cb =>
      have hc' : TokOp.cancel ∈ ops := by cases hc with | tail _ hh => exact hh
      have hrec := ih (cbs ++ [cb]) hc'
      simp [tokRun, tokStep, hrec, regIds]

theorem tokRun_cancelled_iff (st : TokState) (ops : List TokOp) :
    (tokRun st ops).1.cancelled = (st.cancelled || decide (TokOp.cancel ∈ ops)) := by
  induction ops generalizing st with
  | nil => simp [tokRun]
  | cons op ops ih =>
    cases op with
    | reg cb =>
      by_cases hst : st.cancelled = true
      · simp [tokRun, tokStep, hst, ih]
      · simp only [Bool.not_eq_true] at hst
        simp [tokRun, tokStep, hst, ih]
    | cancel =>
      by_cases hst : st.cancelled = true
      · simp [tokRun, tokStep, hst, ih]
      · simp only [Bool.not_eq_true] at hst
        simp [tokRun, tokStep, hst, ih]

/-! ## Properties of the request registry -/

theorem countId_append (id : ReqId) (a b : List ReqId) :
    countId id (a ++ b) = countId id a + countId id b := by
  simp [countId, List.filter_append]

theorem countId_single_eq (id : ReqId) : countId id [id] = 1 := by
  simp [countId]

theorem countId_single_ne (id x : ReqId) (h : x ≠ id) : countId id [x] = 0 := by
  simp [countId, h]

theorem regDelete_not_mem (r : List ReqId) (id : ReqId) : id ∉ regDelete r id := by
  intro hmem
  rcases List.mem_filter.mp hmem with ⟨_, hdec⟩
  simp at hdec

theorem regDelete_mem_of_ne (r : List ReqId) (id id' : ReqId) (hne : id ≠ id')
    (hid : id ∈ r) : id ∈ regDelete r id' := by
  exact List.mem_filter.mpr ⟨hid, by simp [hne]⟩

theorem regDelete_not_mem_of_not_mem (r : List ReqId) (id id' : ReqId)
    (hid : id ∉ r) : id ∉ regDelete r id' := by
  intro hmem
  exact hid (List.mem_filter.mp hmem).1

theorem regSet_mem (r : List ReqId) (id : ReqId) : id ∈ regSet r id := by
  unfold regSet
  split
  next hmem => exact hmem
  next => simp

theorem regSet_mem_of_mem (r : List ReqId) (id id' : ReqId) (hid : id ∈ r) :
    id ∈ regSet r id' := by
  unfold regSet
  split
  · exact hid
  · exact List.mem_append_left _ hid

theorem regSet_not_mem (r : List ReqId) (id id' : ReqId) (hne : id ≠ id')
    (hid : id ∉ r) : id ∉ regSet r id' := by
  unfold regSet
  split
  · exact hid
  · intro hmem
    rcases List.mem_append.mp hmem with h1 | h1
    · exact hid h1
    · simp at h1
      exact hne h1

/-- While `id` is not registered and is never (re)started, it stays out of
the registry and nothing more is logged for it. -/
theorem dispRun_absent (id : ReqId) (evs : List DispatchEv) (r log : List ReqId)
    (hid : id ∉ r) (hs : ∀ e ∈ evs, e ≠ DispatchEv.start id) :
    id ∉ (evs.foldl dispStep (r, log)).1 ∧
      countId id (evs.foldl dispStep (r, log)).2 = countId id log := by
  induction evs generalizing r log with
  | nil => exact ⟨hid, rfl⟩
  | cons e evs ih =>
    have hs' : ∀ e' ∈ evs, e' ≠ DispatchEv.start id := fun e' he' => hs e' (by simp [he'])
    rw [List.foldl_cons]
    cases e with
    | start id' =>
      have hne : id ≠ id' := by
        intro hh
        exact hs (DispatchEv.start id') (by simp) (by rw [hh])
      exact ih (regSet r id') log (regSet_not_mem r id id' hne hid) hs'
    | notif id' =>
      by_cases hcond : id' ≠ [] ∧ id' ∈ r
      · have hne : id' ≠ id := fun hh => hid (hh ▸ hcond.2)
        have hstep : dispStep (r, log) (DispatchEv.notif id') = (regDelete r id', log ++ [id']) := by
          simp [dispStep, hcond]
        rw [hstep]
        have := ih (regDelete r id') (log ++ [id'])
          (regDelete_not_mem_of_not_mem r id id' hid) hs'
        exact ⟨this.1, by rw [this.2, countId_append, countId_single_ne id id' hne]; omega⟩
      · have hstep : dispStep (r, log) (DispatchEv.notif id') = (r, log) := by
          simp only [dispStep, if_neg hcond]
        rw [hstep]
        exact ih r log hid hs'
    | finish id' =>
      by_cases hcond : id' ∈ r
      · have hne : id' ≠ id := fun hh => hid (hh ▸ hcond)
        have hstep : dispStep (r, log) (DispatchEv.finish id') = (regDelete r id', log ++ [id']) := by
          simp [dispStep, hcond]
        rw [hstep]
        have := ih (regDelete r id') (log ++ [id'])
          (regDelete_not_mem_of_not_mem r id id' hid) hs'
        exact ⟨this.1, by rw [this.2, countId_append, countId_single_ne id id' hne]; omega⟩
      · have hstep : dispStep (r, log) (DispatchEv.finish id') = (r, log) := by
          simp [dispStep, hcond]
        rw [hstep]
        exact ih r log hid hs'

/-- While `id` is registered, and until its own `finish`, it is removed at
most once — by a cancellation notification — and each removal is logged
exactly once. -/
theorem dispRun_present (id : ReqId) (evs : List DispatchEv) (r log : List ReqId)
    (hid : id ∈ r) (hs : ∀ e ∈ evs, e ≠ DispatchEv.start id ∧ e ≠ DispatchEv.finish id) :
    (id ∈ (evs.foldl dispStep (r, log)).1 ∧
      countId id (evs.foldl dispStep (r, log)).2 = countId id log)
    ∨ (id ∉ (evs.foldl dispStep (r, log)).1 ∧
      countId id (evs.foldl dispStep (r, log)).2 = countId id log + 1) := by
  induction evs generalizing r log with
  | nil => exact Or.inl ⟨hid, rfl⟩
  | cons e evs ih =>
    have hs' : ∀ e' ∈ evs, e' ≠ DispatchEv.start id ∧ e' ≠ DispatchEv.finish id :=
      fun e' he' => hs e' (by simp [he'])
    rw [List.foldl_cons]
    cases e with
    | start id' =>
      exact ih (regSet r id') log (regSet_mem_of_mem r id id' hid) hs'
    | notif id' =>
      by_cases hcond : id' ≠ [] ∧ id' ∈ r
      · have hstep : dispStep (r, log) (DispatchEv.notif id') = (regDelete r id', log ++ [id']) := by
          simp [dispStep, hcond]
        rw [hstep]
        by_cases heq : id' = id
        · subst heq
          have habs := dispRun_absent id' evs (regDelete r id') (log ++ [id'])
            (regDelete_not_mem r id') (fun e' he' => (hs' e' he').1)
          exact Or.inr ⟨habs.1, by rw [habs.2, countId_append, countId_single_eq]⟩
        · have hmem : id ∈ regDelete r id' :=
            regDelete_mem_of_ne r id id' (fun hh => heq hh.symm) hid
          have := ih (regDelete r id') (log ++ [id']) hmem hs'
          rw [countId_append, countId_single_ne id id' heq] at this
          simpa using this
      · have hstep : dispStep (r, log) (DispatchEv.notif id') = (r, log) := by
          simp only [dispStep, if_neg hcond]
        rw [hstep]
        exact ih r log hid hs'
    | finish id' =>
      have hne : id' ≠ id := by
        intro hh
        exact (hs (DispatchEv.finish id') (by simp)).2 (by rw [hh])
      by_cases hcond : id' ∈ r
      · have hstep : dispStep (r, log) (DispatchEv.finish id') = (regDelete r id', log ++ [id']) := by
          simp [dispStep, hcond]
        rw [hstep]
        have hmem : id ∈ regDelete r id' :=
          regDelete_mem_of_ne r id id' (fun hh => hne hh.symm) hid
        have := ih (regDelete r id') (log ++ [id']) hmem hs'
        rw [countId_append, countId_single_ne id id' hne] at this
        simpa using this
      · have hstep : dispStep (r, log) (DispatchEv.finish id') = (r, log) := by
          simp [dispStep, hcond]
        rw [hstep]
        exact ih r log hid hs'

/-! ## Claim theorems -/

/-- Claim C1, counterexample: an Analysis Request whose ticker list is empty
passes `AnalysisRequestSchema.parse` — the zod schema puts no minimum length
on `tickers` — so `generateAnalysis` issues the HTTP POST instead of
rejecting the request with a validation error before any network call. -/
theorem emptyTickers_not_rejected :
    generateAnalysis (Json.obj [(cp "tickers", Json.arr [])]) = GenOutcome.postIssued
    ∧ GenOutcome.postIssued ≠ GenOutcome.validationError :=
  ⟨rfl, fun hw => GenOutcome.noConfusion hw⟩

/-- Claim C1, amended: `generateAnalysis` runs `AnalysisRequestSchema.parse`
before any network call, and a request failing the schema is rejected with a
validation error before the POST; but the schema accepts an empty ticker
list, so the empty-ticker request is not rejected and the POST is issued. -/
theorem generateAnalysis_validates_before_post (j : Json)
    (hbad : analysisRequestCheck j = false) :
    generateAnalysis j = GenOutcome.validationError
    ∧ generateAnalysis (Json.obj [(cp "tickers", Json.arr [])]) = GenOutcome.postIssued := by
  refine ⟨?_, rfl⟩
  unfold generateAnalysis
  rw [hbad]
  rfl

theorem generateAnalysis_validates_before_post_witness :
    generateAnalysis (Json.obj []) = GenOutcome.validationError
    ∧ generateAnalysis (Json.obj [(cp "tickers", Json.arr [])]) = GenOutcome.postIssued :=
  generateAnalysis_validates_before_post (Json.obj []) rfl

/-- Claim C2, counterexample: the MCP Stream Decoder performs no NaN
normalization: the exact example `{"type":"progress","progress":NaN}` fails
`JSON.parse` and is dropped with a diagnostic instead of being emitted.
The dashboard's transform does not rescue this example either: it only
rewrites occurrences of `": NaN"` with a space, so this message is left
unchanged and its parse also fails. -/
theorem nan_message_dropped :
    (parseStreamResponse false none [exNaNLine ++ [10]] none).events = []
    ∧ (parseStreamResponse false none [exNaNLine ++ [10]] none).diags = [exNaNLine]
    ∧ sanitizeMessage exNaNLine = exNaNLine
    ∧ useStreamProcessorParse exNaNLine = none :=
  ⟨rfl, rfl, rfl, rfl⟩

/-- Claim C2, amended: NaN normalization exists only in the dashboard stream
processor, and only for occurrences spelled `": NaN"` (colon, space, NaN),
which it rewrites to `": null"` before parsing — such a message then parses
with a null progress value; the MCP decoder `parseStreamResponse` performs
no normalization at all and drops even the spaced form with a diagnostic. -/
theorem nan_normalization_dashboard_only :
    useStreamProcessorParse exNaNSpacedLine
      = some (Json.obj [(cp "type", Json.str (cp "progress")), (cp "progress", Json.null)])
    ∧ (parseStreamResponse false none [exNaNSpacedLine ++ [10]] none).events = []
    ∧ (parseStreamResponse false none [exNaNSpacedLine ++ [10]] none).diags = [exNaNSpacedLine] :=
  ⟨rfl, rfl, rfl⟩

/-- Claim C3: chunk-boundary invariance of the Stream Decoder.  For a token
that is never cancelled, decoding any two chunkings of the same byte
sequence — including splits inside a UTF-8 multi-byte character or inside a
JSON token — produces identical events, diagnostics and outcome. -/
theorem stream_decoder_chunk_invariance (h : Bool) (cs1 cs2 : List (List Nat))
    (terr : Option (List Nat)) (hflat : cs1.flatten = cs2.flatten) :
    parseStreamResponse h none cs1 terr = parseStreamResponse h none cs2 terr := by
  unfold parseStreamResponse
  have e1 : extCancelAt none cs1.length = false := rfl
  have e2 : extCancelAt none cs2.length = false := rfl
  rw [e1, e2]
  refine finishStream_congr h false terr ?_
  refine streamEquiv_trans (processChunks_flatten h cs1 streamInit streamInit_ok) ?_
  rw [hflat]
  exact streamEquiv_symm (processChunks_flatten h cs2 streamInit streamInit_ok)

theorem stream_decoder_chunk_invariance_witness :
    parseStreamResponse false none [exEuroBytes] none
      = parseStreamResponse false none [exEuroBytes.take 10, exEuroBytes.drop 10] none :=
  stream_decoder_chunk_invariance false [exEuroBytes]
    [exEuroBytes.take 10, exEuroBytes.drop 10] none (by decide)

/-- Claim C4, counterexample: when the token is cancelled right after the
last chunk (a single chunk here, holding one complete but unterminated
message), the decoder silently drops the buffered message and returns a
clean end of stream — the consumer sees no cancellation outcome at all,
exactly the truncated successful sequence the claim rules out, while the
uncancelled run of the same bytes yields one event. -/
theorem cancel_after_last_chunk_truncated_success :
    (parseStreamResponse false (some 0) [exResultLine] none).outcome = none
    ∧ (parseStreamResponse false (some 0) [exResultLine] none).events = []
    ∧ (parseStreamResponse false none [exResultLine] none).events.length = 1
    ∧ ¬ isCancellationOutcome (parseStreamResponse false (some 0) [exResultLine] none).outcome := by
  refine ⟨rfl, rfl, rfl, ?_⟩
  intro hco
  have h0 : (parseStreamResponse false (some 0) [exResultLine] none).outcome = none := rfl
  rcases hco with hc | hc <;> (rw [h0] at hc; cases hc)

/-- Claim C4, amended: if the token is cancelled after chunk k and at least
one further chunk follows, every event the consumer receives comes from the
chunks up to and including k — nothing is yielded from any later chunk —
and the stream ends in a cancellation outcome, distinct from a clean end of
stream.  (If the cancellation instead lands after the last chunk, the code
drops the remaining buffer and ends cleanly; see the counterexample.) -/
theorem cancellation_mid_stream (h : Bool) (cs : List (List Nat)) (k : Nat)
    (terr : Option (List Nat)) (hk : k + 1 < cs.length) :
    (parseStreamResponse h (some k) cs terr).events
      = (processChunks h none streamInit (cs.take (k + 1)) 0).msg.events
    ∧ isCancellationOutcome (parseStreamResponse h (some k) cs terr).outcome := by
  have hlen : (cs.take (k + 1)).length = k + 1 := by
    rw [List.length_take]
    omega
  obtain ⟨c, rest, hcr⟩ : ∃ c rest, cs.drop (k + 1) = c :: rest := by
    cases hd : cs.drop (k + 1) with
    | nil =>
      exfalso
      have hlend := congrArg List.length hd
      rw [List.length_drop] at hlend
      simp at hlend
      omega
    | cons c rest => exact ⟨c, rest, rfl⟩
  have hsplit : cs = cs.take (k + 1) ++ c :: rest := by
    conv_lhs => rw [← List.take_append_drop (k + 1) cs]
    rw [hcr]
  have hpre : processChunks h (some k) streamInit (cs.take (k + 1)) 0
      = processChunks h none streamInit (cs.take (k + 1)) 0 :=
    processChunks_early_segment h k streamInit (cs.take (k + 1)) 0 (by rw [hlen]; omega)
  have hok1 : streamOk (processChunks h none streamInit (cs.take (k + 1)) 0) :=
    processChunks_streamOk h none streamInit _ 0 streamInit_ok
  have hrun : processChunks h (some k) streamInit cs 0
      = processChunks h (some k) (processChunks h none streamInit (cs.take (k + 1)) 0)
          (c :: rest) (k + 1) := by
    conv_lhs => rw [hsplit]
    rw [processChunks_append h (some k) streamInit (cs.take (k + 1)) (c :: rest) 0, hpre,
        hlen, Nat.zero_add]
  have hext : extCancelAt (some k) (k + 1) = true := by
    simp [extCancelAt]
  unfold parseStreamResponse
  rw [hrun]
  cases hthr1 : (processChunks h none streamInit (cs.take (k + 1)) 0).msg.thrown with
  | some x =>
    rw [processChunks_absorbed h (some k) _ (c :: rest) (k + 1) (by simp [hthr1]),
        finishStream_thrown h _ terr _ x hthr1]
    refine ⟨rfl, ?_⟩
    rcases hok1.1.2 with h0 | h1 | h2
    · rw [hthr1] at h0
      cases h0
    · rw [hthr1] at h1
      exact Or.inl h1
    · rw [hthr1] at h2
      exact Or.inr h2
  | none =>
    have hstep : processChunks h (some k)
        (processChunks h none streamInit (cs.take (k + 1)) 0) (c :: rest) (k + 1)
        = { processChunks h none streamInit (cs.take (k + 1)) 0 with
            msg := { (processChunks h none streamInit (cs.take (k + 1)) 0).msg with
                     tok := true, thrown := some cancelMsg } } := by
      show processChunks h (some k)
        (processChunk h (extCancelAt (some k) (k + 1)) _ c) rest (k + 2) = _
      rw [hext, processChunk_true h _ c hthr1]
      exact processChunks_absorbed h (some k) _ rest (k + 2) (by simp)
    rw [hstep, finishStream_thrown h _ terr _ cancelMsg (by simp)]
    exact ⟨rfl, Or.inl rfl⟩

theorem cancellation_mid_stream_witness :
    (parseStreamResponse false (some 0)
        [exResultLine ++ [10], exResultLine ++ [10], exResultLine ++ [10]] none).events
      = (processChunks false none streamInit
          ([exResultLine ++ [10], exResultLine ++ [10], exResultLine ++ [10]].take 1) 0).msg.events
    ∧ isCancellationOutcome (parseStreamResponse false (some 0)
        [exResultLine ++ [10], exResultLine ++ [10], exResultLine ++ [10]] none).outcome :=
  cancellation_mid_stream false
    [exResultLine ++ [10], exResultLine ++ [10], exResultLine ++ [10]] 0 none (by simp)

/-- Claim C7: cancellation takes precedence in error reporting.  If the
token is cancelled at any point of the stream (here: after chunk k, with
k below the chunk count) and the transport then raises any generic error,
the consumer-visible outcome is a cancellation signal, never the generic
error; and at the tool-call boundary, the catch of the dispatcher turns any
error into a `CancelledError` whenever the call's token is cancelled. -/
theorem cancellation_precedence_in_reporting (h : Bool) (cs : List (List Nat))
    (k : Nat) (e : List Nat) (hk : k < cs.length) :
    isCancellationOutcome (parseStreamResponse h (some k) cs (some e)).outcome
    ∧ (∀ e' : ToolErr, callToolCatch true e' = ToolErr.cancelledError) := by
  refine ⟨?_, fun e' => rfl⟩
  unfold parseStreamResponse
  have hok : streamOk (processChunks h (some k) streamInit cs 0) :=
    processChunks_streamOk h (some k) streamInit cs 0 streamInit_ok
  cases hthr : (processChunks h (some k) streamInit cs 0).msg.thrown with
  | some x =>
    rw [finishStream_thrown h _ (some e) _ x hthr]
    rcases hok.1.2 with h0 | h1 | h2
    · rw [hthr] at h0
      cases h0
    · rw [hthr] at h1
      exact Or.inl h1
    · rw [hthr] at h2
      exact Or.inr h2
  | none =>
    have hext : extCancelAt (some k) cs.length = true := by
      simp [extCancelAt]
      omega
    unfold finishStream
    rw [hthr]
    simp only [Option.isSome_none, Bool.false_eq_true, if_false, hext, Bool.or_true, if_true]
    exact Or.inl rfl

theorem cancellation_precedence_in_reporting_witness :
    isCancellationOutcome
      (parseStreamResponse false (some 0) [exResultLine ++ [10]] (some (cp "boom"))).outcome
    ∧ (∀ e' : ToolErr, callToolCatch true e' = ToolErr.cancelledError) :=
  cancellation_precedence_in_reporting false [exResultLine ++ [10]] 0 (cp "boom") (by simp)

/-- Claim C6: a malformed line among well-formed lines, with the token never
cancelled, is skipped with exactly one diagnostic and no event, while every
well-formed line before and after it is still emitted in order; the stream
ends cleanly rather than aborting. -/
theorem malformed_line_skipped (h : Bool) (bs : List Nat)
    (pre post : List (List Nat)) (bad : List Nat)
    (hdec : (utf8DecodeChunk utf8Init bs).2 = unlines (pre ++ bad :: post))
    (hnl : ∀ l ∈ pre ++ bad :: post, 10 ∉ l)
    (hgood : ∀ l ∈ pre ++ post, trimStr l ≠ [] ∧ trimStr (sseStrip l) ≠ [] ∧
      ∃ v, parseJson (sseStrip l) = some v ∧ v ≠ Json.null ∧ isCancelledEvent v = false)
    (hbad1 : trimStr bad ≠ []) (hbad2 : trimStr (sseStrip bad) ≠ [])
    (hbad3 : parseJson (sseStrip bad) = none) :
    (parseStreamResponse h none [bs] none).events
      = (pre ++ post).filterMap (fun l => parseJson (sseStrip l))
    ∧ (parseStreamResponse h none [bs] none).diags = [bad]
    ∧ (parseStreamResponse h none [bs] none).outcome = none := by
  have hchunk : processChunks h none streamInit [bs] 0 = processChunk h false streamInit bs := rfl
  have hsc : splitComplete (streamInit.buffer ++ (utf8DecodeChunk streamInit.u bs).2)
      = (pre ++ bad :: post, []) := by
    show splitComplete ([] ++ (utf8DecodeChunk utf8Init bs).2) = _
    rw [List.nil_append, hdec]
    exact splitComplete_unlines _ hnl
  have h1 : processLines h msgInit pre
      = { msgInit with events := msgInit.events ++
            pre.filterMap (fun l => parseJson (sseStrip l)) } :=
    processLines_good h msgInit pre rfl rfl (fun l hl => hgood l (List.mem_append_left _ hl))
  have h2 : processLine h (processLines h msgInit pre) bad
      = { processLines h msgInit pre with
          diags := (processLines h msgInit pre).diags ++ [bad] } := by
    rw [h1]
    exact processLine_diag h _ bad rfl rfl hbad1 hbad2 hbad3
  have h3 : processLines h msgInit (pre ++ bad :: post)
      = { msgInit with
          events := msgInit.events ++ (pre ++ post).filterMap (fun l => parseJson (sseStrip l)),
          diags := msgInit.diags ++ [bad] } := by
    have hsplit2 : pre ++ bad :: post = (pre ++ [bad]) ++ post := by simp
    rw [hsplit2, processLines_append, processLines_append]
    show processLines h (processLine h (processLines h msgInit pre) bad) post = _
    rw [h2, h1]
    rw [processLines_good h _ post rfl rfl (fun l hl => hgood l (List.mem_append_right _ hl))]
    simp [List.filterMap_append]
  have hrunall : processChunks h none streamInit [bs] 0
      = { u := (utf8DecodeChunk utf8Init bs).1, buffer := [],
          msg := { msgInit with
            events := msgInit.events ++ (pre ++ post).filterMap (fun l => parseJson (sseStrip l)),
            diags := msgInit.diags ++ [bad] } } := by
    rw [hchunk, processChunk_false h streamInit bs rfl rfl, hsc, ← h3]
    rfl
  unfold parseStreamResponse
  rw [hrunall]
  exact ⟨rfl, rfl, rfl⟩

theorem malformed_line_skipped_witness :
    (parseStreamResponse false none
        [exResultLine ++ [10] ++ cp "oops" ++ [10] ++ exResultLine ++ [10]] none).events
      = ([exResultLine] ++ [exResultLine]).filterMap (fun l => parseJson (sseStrip l))
    ∧ (parseStreamResponse false none
        [exResultLine ++ [10] ++ cp "oops" ++ [10] ++ exResultLine ++ [10]] none).diags
      = [cp "oops"]
    ∧ (parseStreamResponse false none
        [exResultLine ++ [10] ++ cp "oops" ++ [10] ++ exResultLine ++ [10]] none).outcome
      = none :=
  malformed_line_skipped false
    (exResultLine ++ [10] ++ cp "oops" ++ [10] ++ exResultLine ++ [10])
    [exResultLine] [exResultLine] (cp "oops")
    (by decide) (by decide)
    (by
      intro l hl
      have hl' : l = exResultLine := by
        rcases List.mem_append.mp hl with hmem | hmem <;> simpa using hmem
      subst hl'
      exact ⟨by decide, by decide,
        Json.obj [(cp "type", Json.str (cp "result"))], rfl,
        fun hnull => Json.noConfusion hnull, rfl⟩)
    (by decide) (by decide) rfl

/-- Claim C10, counterexample: the stream line `null` parses successfully to
a value whose type field is missing, yet the decoder does not emit it: the
`data.type === "cancelled"` access throws a TypeError on a parsed null,
whose message the per-line catch logs like a parse failure, so the message
is dropped with a diagnostic — refuting the claim's universal "emitted
rather than discarded" at this in-scope input. -/
theorem parsed_null_dropped :
    parseJson (cp "null") = some Json.null
    ∧ isCancelledEvent Json.null = false
    ∧ (parseStreamResponse false none [cp "null" ++ [10]] none).events = []
    ∧ (parseStreamResponse false none [cp "null" ++ [10]] none).diags = [cp "null"]
    ∧ (parseStreamResponse false none [cp "null" ++ [10]] none).outcome = none :=
  ⟨rfl, rfl, rfl, rfl, rfl⟩

/-- Claim C10 (implicit), amended: every successfully parsed non-null stream
message whose tag is not "cancelled" is yielded to the consumer exactly as
parsed — the decoder never applies `AnalysisResponseSchema`, so a message of
unknown or missing type is emitted rather than dropped or rejected; in
particular the empty object fails every branch of the schema union yet is
still emitted.  A parsed `null`, however, makes the `data.type` access throw
a TypeError and is dropped with a diagnostic (see the counterexample). -/
theorem unvalidated_event_passthrough :
    (∀ (h : Bool) (bs line : List Nat) (v : Json),
      (utf8DecodeChunk utf8Init bs).2 = line ++ [10] →
      10 ∉ line → trimStr line ≠ [] → trimStr (sseStrip line) ≠ [] →
      parseJson (sseStrip line) = some v → v ≠ Json.null → isCancelledEvent v = false →
      (parseStreamResponse h none [bs] none).events = [v]
      ∧ (parseStreamResponse h none [bs] none).diags = []
      ∧ (parseStreamResponse h none [bs] none).outcome = none)
    ∧ analysisResponseCheck (Json.obj []) = false := by
  refine ⟨?_, rfl⟩
  intro h bs line v hdec hnl htrim htrim2 hparse hnull hcanc
  have hchunk : processChunks h none streamInit [bs] 0 = processChunk h false streamInit bs := rfl
  have hsc : splitComplete (streamInit.buffer ++ (utf8DecodeChunk streamInit.u bs).2)
      = ([line], []) := by
    show splitComplete ([] ++ (utf8DecodeChunk utf8Init bs).2) = _
    rw [List.nil_append, hdec]
    have := splitComplete_unlines [line] (by simpa using hnl)
    simpa [unlines] using this
  have h1 : processLines h msgInit [line]
      = { msgInit with events := msgInit.events ++
            [line].filterMap (fun l => parseJson (sseStrip l)) } :=
    processLines_good h msgInit [line] rfl rfl
      (by
        intro l hl
        have hl' : l = line := by simpa using hl
        subst hl'
        exact ⟨htrim, htrim2, v, hparse, hnull, hcanc⟩)
  have hrunall : processChunks h none streamInit [bs] 0
      = { u := (utf8DecodeChunk utf8Init bs).1, buffer := [],
          msg := processLines h msgInit [line] } := by
    rw [hchunk, processChunk_false h streamInit bs rfl rfl, hsc]
    rfl
  unfold parseStreamResponse
  rw [hrunall, h1]
  refine ⟨?_, rfl, rfl⟩
  show msgInit.events ++ [line].filterMap (fun l => parseJson (sseStrip l)) = [v]
  simp [msgInit, hparse]

theorem unvalidated_event_passthrough_witness :
    (parseStreamResponse false none [[123, 125, 10]] none).events = [Json.obj []]
    ∧ (parseStreamResponse false none [[123, 125, 10]] none).diags = []
    ∧ (parseStreamResponse false none [[123, 125, 10]] none).outcome = none :=
  unvalidated_event_passthrough.1 false [123, 125, 10] [123, 125] (Json.obj [])
    rfl (by decide) (by decide) (by decide) rfl (fun hnull => Json.noConfusion hnull) rfl

/-- Claim C5: the cancellation token contract.  Over every trace of
register/cancel operations on a fresh token: (a) if the trace cancels at
least once, the complete invocation sequence is exactly the registered
callbacks in registration order — each fires exactly once in total, the ones
registered before the first `cancel` at that `cancel`, later ones at their
own registration, and further `cancel`s fire nothing; (b) the cancelled
state, once true, never reverts under further operations; (c) a callback
registered on an already-cancelled token fires immediately within that very
operation. -/
theorem token_cancel_semantics (ops : List TokOp) :
    (TokOp.cancel ∈ ops → (tokRun tokInit ops).2 = regIds ops)
    ∧ ((tokRun tokInit ops).1.cancelled = true →
        ∀ more, (tokRun tokInit (ops ++ more)).1.cancelled = true)
    ∧ (∀ (st : TokState) (cb : Nat), st.cancelled = true →
        tokStep st (TokOp.reg cb) = (st, [cb])) := by
  refine ⟨fun hc => ?_, fun hcanc more => ?_, fun st cb hst => ?_⟩
  · have := tokRun_fires ops [] hc
    simpa [tokInit] using this
  · rw [tokRun_cancelled_iff] at hcanc ⊢
    simp only [tokInit, Bool.false_or, decide_eq_true_eq] at hcanc ⊢
    exact List.mem_append_left more hcanc
  · simp [tokStep, hst]

theorem token_cancel_semantics_witness :
    (tokRun tokInit [TokOp.reg 1, TokOp.cancel, TokOp.cancel, TokOp.reg 2]).2
      = regIds [TokOp.reg 1, TokOp.cancel, TokOp.cancel, TokOp.reg 2] :=
  (token_cancel_semantics [TokOp.reg 1, TokOp.cancel, TokOp.cancel, TokOp.reg 2]).1 (by decide)

/-- Claim C8: request-registry lifecycle.  For a call on a fresh request id
(ids are generated collision-resistantly, so no other `start` bears it), the
id is removed from the registry exactly once across the whole trace — at the
first terminal event, whether that is a mid-call cancellation notification
or the `finally` of the call — it is no longer registered afterwards, and a
subsequent cancellation notification carrying that id (or any id that is not
registered) is a no-op leaving registry and log untouched. -/
theorem request_registry_cleanup (pre mids post : List DispatchEv) (id : ReqId)
    (hfresh : id ∉ (dispRun pre).1)
    (hmids : ∀ e ∈ mids, e ≠ DispatchEv.start id ∧ e ≠ DispatchEv.finish id)
    (hpost : ∀ e ∈ post, e ≠ DispatchEv.start id) :
    countId id (dispRun (pre ++ DispatchEv.start id :: mids ++ DispatchEv.finish id :: post)).2
      = countId id (dispRun pre).2 + 1
    ∧ id ∉ (dispRun (pre ++ DispatchEv.start id :: mids ++ DispatchEv.finish id :: post)).1
    ∧ (∀ (r log : List ReqId), id ∉ r →
        dispStep (r, log) (DispatchEv.notif id) = (r, log)) := by
  have hnoop : ∀ (r log : List ReqId), id ∉ r →
      dispStep (r, log) (DispatchEv.notif id) = (r, log) := by
    intro r log hid
    have hcond : ¬ (id ≠ [] ∧ id ∈ r) := fun hcon => hid hcon.2
    simp only [dispStep, if_neg hcond]
  rcases hp0 : dispRun pre with ⟨r0, log0⟩
  rw [hp0] at hfresh
  simp only at hfresh
  have hstart : dispStep (r0, log0) (DispatchEv.start id) = (regSet r0 id, log0) := rfl
  have hmem0 : id ∈ regSet r0 id := regSet_mem r0 id
  have hfold1 : List.foldl dispStep ([], []) (pre ++ DispatchEv.start id :: mids)
      = mids.foldl dispStep (regSet r0 id, log0) := by
    rw [List.foldl_append, List.foldl_cons]
    rw [show List.foldl dispStep ([], []) pre = (r0, log0) from hp0, hstart]
  have hfold : dispRun (pre ++ DispatchEv.start id :: mids ++ DispatchEv.finish id :: post)
      = (DispatchEv.finish id :: post).foldl dispStep
          (mids.foldl dispStep (regSet r0 id, log0)) := by
    show List.foldl dispStep ([], [])
        ((pre ++ DispatchEv.start id :: mids) ++ (DispatchEv.finish id :: post)) = _
    rw [List.foldl_append, hfold1]
  rw [hfold, List.foldl_cons]
  rcases hmid : mids.foldl dispStep (regSet r0 id, log0) with ⟨r1, log1⟩
  have hdich := dispRun_present id mids (regSet r0 id) log0 hmem0 hmids
  rw [hmid] at hdich
  simp only at hdich
  rcases hdich with ⟨hin, hcnt⟩ | ⟨hout, hcnt⟩
  · have hfin : dispStep (r1, log1) (DispatchEv.finish id) = (regDelete r1 id, log1 ++ [id]) := by
      simp [dispStep, hin]
    rw [hfin]
    have habs := dispRun_absent id post (regDelete r1 id) (log1 ++ [id])
      (regDelete_not_mem r1 id) hpost
    refine ⟨?_, habs.1, hnoop⟩
    rw [habs.2, countId_append, countId_single_eq, hcnt]
  · have hfin : dispStep (r1, log1) (DispatchEv.finish id) = (r1, log1) := by
      simp [dispStep, hout]
    rw [hfin]
    have habs := dispRun_absent id post r1 log1 hout hpost
    refine ⟨?_, habs.1, hnoop⟩
    rw [habs.2, hcnt]

theorem request_registry_cleanup_witness :
    countId (cp "r1") (dispRun ([] ++ DispatchEv.start (cp "r1") ::
        [DispatchEv.notif (cp "r1")] ++ DispatchEv.finish (cp "r1") ::
        [DispatchEv.notif (cp "r1")])).2
      = countId (cp "r1") (dispRun []).2 + 1
    ∧ (cp "r1") ∉ (dispRun ([] ++ DispatchEv.start (cp "r1") ::
        [DispatchEv.notif (cp "r1")] ++ DispatchEv.finish (cp "r1") ::
        [DispatchEv.notif (cp "r1")])).1
    ∧ (∀ (r log : List ReqId), (cp "r1") ∉ r →
        dispStep (r, log) (DispatchEv.notif (cp "r1")) = (r, log)) :=
  request_registry_cleanup [] [DispatchEv.notif (cp "r1")] [DispatchEv.notif (cp "r1")]
    (cp "r1") (by decide) (by decide) (by decide)

/-- Claim C9: the tool-call dispatcher of the cancellation-aware server
(part_001) has no `get_portfolio_status` case: the call falls through to the
default branch and is rejected as an unknown tool, contradicting the
repository's README and the spec's tool surface.  The legacy dispatcher
(src/mcp/src/tools.ts) still routes it to `handleGetPortfolioStatus`, which
returns the portfolio service status payload from `GET
/api/portfolio/status` — showing the dropped case is a slip, not intent. -/
theorem get_portfolio_status_unknown_tool :
    callToolDispatch (cp "get_portfolio_status") = none
    ∧ legacyCallToolDispatch (cp "get_portfolio_status") = some ToolHandler.getPortfolioStatus :=
  ⟨rfl, rfl⟩

end HedgeFund
